import Mathlib

/-!
Verification of the interval-pool library (`davbrito/interval-pool`).

The development shallowly embeds the current implementation:

* `src/bucket.ts` — class `IntervalBucket` (the revision the pool's `index.ts`
  calls into: it carries a `#disposed` flag, a `remove` method that throws on a
  disposed bucket, a `stop` method, and a `dispose` that never fires the
  `#onEmpty` notification).
* `src/index.ts` — class `IntervalPool` (`run`/`once`/`#subscribe`,
  `#onEmptyBucket`, `#upsertBucket`, `clear`, `getActiveIntervalCount`,
  `getSubscriptionCount`, `getStats`, and the coalescing `iterate` async
  generator).

JavaScript mutable objects become explicit state records; the timer facility
(`CustomInterval`: `set`/`clear`) becomes a `TimerWorld` holding the list of
live handles; `Set<IntervalSubscription>` becomes an insertion-ordered list of
subscriptions identified by a synthetic id (JS object identity); `throw`
becomes `Except.error`; `console.error` and the `#onEmpty` call become events
in a returned trace.  Callbacks are modelled by a behaviour environment
`beh : Nat → Bool` giving, per subscription id, whether the callback throws on
invocation; callbacks themselves do not re-enter the pool (the claims under
study quantify over plain callbacks).
-/

namespace IntervalPoolModel

/-- One `IntervalSubscription` object: identified by a synthetic id (object
identity in JS) plus its `once` flag.  The callback itself is looked up in the
behaviour environment by id. -/
structure Subscription where
  id : Nat
  once : Bool
deriving DecidableEq, Repr

/-- The state of the underlying timer facility (`CustomInterval`): a fresh
handle counter and the list of live `(handle, delay)` pairs, in scheduling
order.  `set` appends a fresh handle; `clear` removes it. -/
structure TimerWorld where
  nextHandle : Nat
  live : List (Nat × Nat)
deriving DecidableEq, Repr

/-- The mutable state of one `IntervalBucket` object. -/
structure Bucket where
  delay : Nat
  disposed : Bool
  intervalId : Option Nat
  onEmptyAlive : Bool
  subs : List Subscription
deriving DecidableEq, Repr

/-- Events a bucket operation can emit: the single `this.#onEmpty?.(this)`
call site inside `remove`. -/
inductive BEvent where
  | onEmptyFired
deriving DecidableEq, Repr

/-- `Set.add` on the subscription set: no-op when the object (by identity) is
already present, otherwise append, preserving insertion order. -/
def setAdd (subs : List Subscription) (s : Subscription) : List Subscription :=
  if subs.any (fun t => t.id = s.id) then subs else subs ++ [s]

/-- `Set.delete` on the subscription set: remove the object with the given
identity, if present. -/
def setDelete (subs : List Subscription) (sid : Nat) : List Subscription :=
  subs.filter (fun t => t.id ≠ sid)

/-- `IntervalBucket.#tryStart`: if a timer handle is already held, do nothing;
otherwise request a fresh repeating-timer handle for this bucket's delay. -/
def tryStart (t : TimerWorld) (b : Bucket) : TimerWorld × Bucket :=
  match b.intervalId with
  | some _ => (t, b)
  | none =>
    (⟨t.nextHandle + 1, t.live ++ [(t.nextHandle, b.delay)]⟩,
     { b with intervalId := some t.nextHandle })

/-- `IntervalBucket.stop`: throws on a disposed bucket; otherwise cancels the
held timer handle, if any. -/
def bucketStop (t : TimerWorld) (b : Bucket) : Except String (TimerWorld × Bucket) :=
  if b.disposed then .error "Cannot stop a disposed bucket"
  else
    match b.intervalId with
    | some h =>
      .ok (⟨t.nextHandle, t.live.filter (fun q => q.1 ≠ h)⟩, { b with intervalId := none })
    | none => .ok (t, b)

/-- `IntervalBucket.add`: throws on a disposed bucket; otherwise inserts the
subscription and tries to start the timer. -/
def bucketAdd (t : TimerWorld) (b : Bucket) (s : Subscription) :
    Except String (TimerWorld × Bucket) :=
  if b.disposed then .error "Cannot add subscription to a disposed bucket"
  else .ok (tryStart t { b with subs := setAdd b.subs s })

/-- `IntervalBucket.remove`: throws on a disposed bucket; otherwise deletes the
subscription and, when the set became empty, stops the timer and fires the
`#onEmpty` notification (when the callback is still installed). -/
def bucketRemove (t : TimerWorld) (b : Bucket) (sid : Nat) :
    Except String (TimerWorld × Bucket × List BEvent) :=
  if b.disposed then .error "Cannot remove subscription from a disposed bucket"
  else
    let b1 := { b with subs := setDelete b.subs sid }
    if b1.subs.length = 0 then
      match bucketStop t b1 with
      | .ok (t2, b2) => .ok (t2, b2, if b2.onEmptyAlive then [BEvent.onEmptyFired] else [])
      | .error e => .error e
    else .ok (t, b1, [])

/-- `IntervalBucket.dispose`: no-op when already disposed; otherwise clears the
subscription set, cancels the held timer handle (the inlined `stop` call, which
cannot throw here since `#disposed` is still false), drops the `#onEmpty`
callback and marks the bucket disposed.  It emits no event: the source never
calls `#onEmpty` here. -/
def bucketDispose (t : TimerWorld) (b : Bucket) : TimerWorld × Bucket × List BEvent :=
  if b.disposed then (t, b, [])
  else
    let b1 := { b with subs := [] }
    let tb2 : TimerWorld × Bucket :=
      match b1.intervalId with
      | some h =>
        (⟨t.nextHandle, t.live.filter (fun q => q.1 ≠ h)⟩, { b1 with intervalId := none })
      | none => (t, b1)
    (tb2.1, { tb2.2 with onEmptyAlive := false, disposed := true }, [])

/-- The state of one `IntervalPool` together with the timer facility: the
insertion-ordered `Map` from delay to bucket, plus the fresh-id counter for
subscription objects. -/
structure World where
  timers : TimerWorld
  buckets : List (Nat × Bucket)
  nextSubId : Nat
deriving DecidableEq, Repr

/-- `Map.get`: the value at the first (for a real `Map`, only) entry with the
given key. -/
def mapGet : List (Nat × Bucket) → Nat → Option Bucket
  | [], _ => none
  | p :: t, k => if p.1 = k then some p.2 else mapGet t k

/-- `Map.set`: update the entry in place when the key is present, append a new
entry otherwise (JS `Map` preserves insertion order of keys). -/
def mapSet : List (Nat × Bucket) → Nat → Bucket → List (Nat × Bucket)
  | [], k, b => [(k, b)]
  | p :: t, k, b => if p.1 = k then (k, b) :: t else p :: mapSet t k b

/-- `Map.delete`: drop the entry with the given key, if present. -/
def mapDelete : List (Nat × Bucket) → Nat → List (Nat × Bucket)
  | [], _ => []
  | p :: t, k => if p.1 = k then t else p :: mapDelete t k

/-- A bucket as built by `new IntervalBucket(interval, delay, onEmpty)`. -/
def freshBucket (delay : Nat) : Bucket :=
  ⟨delay, false, none, true, []⟩

/-- `IntervalPool.#subscribe` (the shared body of `run` and `once`):
`#upsertBucket(delay).add(subscription)` with a fresh subscription object.
Returns the id of the new subscription; the unsubscribe capability it returns
in the source is the pair `(delay, id)` consumed by `unsubscribe` below. -/
def subscribe (w : World) (delay : Nat) (once : Bool) : Except String (World × Nat) :=
  let sid := w.nextSubId
  let b :=
    match mapGet w.buckets delay with
    | some b => b
    | none => freshBucket delay
  match bucketAdd w.timers b ⟨sid, once⟩ with
  | .error e => .error e
  | .ok (t2, b2) => .ok (⟨t2, mapSet w.buckets delay b2, sid + 1⟩, sid)

/-- `IntervalPool.#onEmptyBucket`: dispose the bucket that reported empty and
drop its key from the map.  The disposed bucket object itself becomes
unreachable, so only its effect on the timer world is kept. -/
def onEmptyBucket (w : World) (delay : Nat) (b : Bucket) : World :=
  ⟨(bucketDispose w.timers b).1, mapDelete w.buckets delay, w.nextSubId⟩

/-- The body of the unsubscribe capability when the bucket for `delay` is still
in the map: `bucket.remove(subscription)`, with the `#onEmpty` notification
routed to `#onEmptyBucket`. -/
def removeFromBucket (w : World) (delay : Nat) (b : Bucket) (sid : Nat) :
    Except String World :=
  match bucketRemove w.timers b sid with
  | .error e => .error e
  | .ok (t2, b2, evs) =>
    let w1 : World := ⟨t2, mapSet w.buckets delay b2, w.nextSubId⟩
    .ok (if evs.isEmpty then w1 else onEmptyBucket w1 delay b2)

/-- The unsubscribe capability returned by `run`/`once`:
`this.#buckets.get(delay)?.remove(subscription)`. -/
def unsubscribe (w : World) (delay : Nat) (sid : Nat) : Except String World :=
  match mapGet w.buckets delay with
  | none => .ok w
  | some b => removeFromBucket w delay b sid

/-- `IntervalPool.clear`: dispose every bucket, then empty the map. -/
def clear (w : World) : World :=
  ⟨w.buckets.foldl (fun t pb => (bucketDispose t pb.2).1) w.timers, [], w.nextSubId⟩

/-- `IntervalPool.getActiveIntervalCount`: the size of the bucket map. -/
def activeIntervalCount (w : World) : Nat :=
  w.buckets.length

/-- `IntervalPool.getSubscriptionCount`. -/
def getSubscriptionCount (w : World) (delay : Nat) : Nat :=
  match mapGet w.buckets delay with
  | some b => b.subs.length
  | none => 0

/-- `IntervalPool.getStats`: one `(delay, subscriptionCount)` entry per
bucket, in map order. -/
def getStats (w : World) : List (Nat × Nat) :=
  w.buckets.map (fun pb => (pb.1, pb.2.subs.length))

/-- A sequence of `run`/`once` calls at one period: `false` entries are `run`,
`true` entries are `once`. -/
def subscribeMany (delay : Nat) : World → List Bool → Except String World
  | w, [] => .ok w
  | w, o :: os =>
    match subscribe w delay o with
    | .error e => .error e
    | .ok (w2, _) => subscribeMany delay w2 os

/-- Number of live underlying timer handles whose period is `d`. -/
def countTimersAt (w : World) (d : Nat) : Nat :=
  (w.timers.live.filter (fun q => q.2 = d)).length

/-- Observable events of one tick: a callback invocation, and the
`console.error` report of a caught callback error. -/
inductive TickEvent where
  | invoked (sid : Nat)
  | errorLogged (sid : Nat)
deriving DecidableEq, Repr

/-- Whether a tick event is a callback invocation. -/
def TickEvent.isInvoked : TickEvent → Bool
  | .invoked _ => true
  | .errorLogged _ => false

/-- The per-subscription events of `#notifySubscription`: the invocation, then
the error report when the behaviour says the callback throws. -/
def notifyEvents (beh : Nat → Bool) (s : Subscription) : List TickEvent :=
  TickEvent.invoked s.id :: (if beh s.id then [TickEvent.errorLogged s.id] else [])

/-- The full event trace of iterating `#notifySubscription` over a list of
subscriptions. -/
def tickTrace (beh : Nat → Bool) (l : List Subscription) : List TickEvent :=
  l.flatMap (notifyEvents beh)

/-- The loop of `IntervalBucket.#handleIntervalTick`:
`this.#subscriptions.forEach(this.#notifySubscription, this)`.  `rem` is the
not-yet-visited part of the iteration snapshot; JS `Set.forEach` skips an
element that has been deleted from the set before being visited, hence the
liveness check against the current bucket.  A `once` subscription is removed in
the `finally` block through `this.remove`, i.e. `removeFromBucket`. -/
def tickGo (beh : Nat → Bool) (delay : Nat) :
    List Subscription → World → List TickEvent → Except String (World × List TickEvent)
  | [], w, acc => .ok (w, acc)
  | s :: rest, w, acc =>
    match mapGet w.buckets delay with
    | none => tickGo beh delay rest w acc
    | some b =>
      if b.subs.any (fun x => x.id = s.id) then
        let acc1 := acc ++ notifyEvents beh s
        if s.once then
          match removeFromBucket w delay b s.id with
          | .error e => .error e
          | .ok w2 => tickGo beh delay rest w2 acc1
        else tickGo beh delay rest w acc1
      else tickGo beh delay rest w acc

/-- One firing of the underlying timer for period `delay`:
`IntervalBucket.#handleIntervalTick` of the bucket currently at that period
(a no-op when none exists — a cancelled handle never fires). -/
def handleTick (beh : Nat → Bool) (w : World) (delay : Nat) :
    Except String (World × List TickEvent) :=
  match mapGet w.buckets delay with
  | none => .ok (w, [])
  | some b => tickGo beh delay b.subs w []

/-- `n` consecutive firings of the timer for period `delay`, with the traces
concatenated. -/
def runTicks (beh : Nat → Bool) (delay : Nat) :
    Nat → World → Except String (World × List TickEvent)
  | 0, w => .ok (w, [])
  | n + 1, w =>
    match handleTick beh w delay with
    | .error e => .error e
    | .ok (w1, evs) =>
      match runTicks beh delay n w1 with
      | .error e => .error e
      | .ok (w2, evs2) => .ok (w2, evs ++ evs2)

/-- Suspension point of the `iterate` async generator: `notStarted` before the
first `next()` runs the body, `awaiting` when parked on
`await new Promise((res) => { resolve = res })` (a waiter is installed),
`yielded` when parked on `yield` inside the inner drain loop, `finished` after
the `finally` block ran. -/
inductive GenPos where
  | notStarted
  | awaiting
  | yielded
  | finished
deriving DecidableEq, Repr

/-- The transient state of one `iterate(delay)` session: the generator's
suspension point, its `lostTicks` counter and `stopped` flag, and whether the
underlying pool subscription made by `this.run(delay, callback)` is still
live. -/
structure IterSession where
  pos : GenPos
  lostTicks : Nat
  stopped : Bool
  subscribed : Bool
deriving DecidableEq, Repr

/-- Result of one `next()` call on the iteration session: `immediate` when the
generator reaches a `yield` without suspending on the tick promise,
`suspended` when the pull parks on `await` until the next tick. -/
inductive PullResult where
  | immediate
  | suspended
deriving DecidableEq, Repr

/-- The tick callback the session registers through `this.run(delay, ...)`:
`lostTicks++`, and when a waiter is installed (`resolve`), resume it — the
generator then passes the `lostTicks > 0` test and parks on `yield`,
delivering the pending pull. -/
def iterTick (s : IterSession) : IterSession :=
  if s.subscribed then
    let s1 := { s with lostTicks := s.lostTicks + 1 }
    match s1.pos with
    | GenPos.awaiting => { s1 with pos := GenPos.yielded }
    | _ => s1
  else s

/-- One `next()` call on the generator.  From `notStarted` the body runs: it
subscribes, enters the loop with `lostTicks = 0` and parks on `await`.  From
`yielded` it resumes at `lostTicks--`; when ticks remain pending it
immediately reaches `yield` again, otherwise it loops round and parks on
`await`.  A `next()` while already `awaiting` just leaves the pull pending. -/
def iterPull (s : IterSession) : IterSession × PullResult :=
  match s.pos with
  | GenPos.notStarted =>
    ({ s with subscribed := true, pos := GenPos.awaiting }, PullResult.suspended)
  | GenPos.yielded =>
    let l := s.lostTicks - 1
    if l > 0 then ({ s with lostTicks := l }, PullResult.immediate)
    else ({ s with lostTicks := l, pos := GenPos.awaiting }, PullResult.suspended)
  | GenPos.awaiting => (s, PullResult.suspended)
  | GenPos.finished => (s, PullResult.suspended)

/-- `return()` on the generator (the consumer stops pulling): the `finally`
block sets `stopped` and unsubscribes the underlying subscription. -/
def iterReturn (s : IterSession) : IterSession :=
  { s with pos := GenPos.finished, stopped := true, subscribed := false }

/-- `k` underlying ticks in a row with no pull in between. -/
def iterTicks : Nat → IterSession → IterSession
  | 0, s => s
  | k + 1, s => iterTicks k (iterTick s)

/-- `i` consecutive `next()` calls, keeping only the final state. -/
def iterPulls : Nat → IterSession → IterSession
  | 0, s => s
  | i + 1, s => iterPulls i (iterPull s).1

/-- Well-formedness of a pool world, as maintained by the implementation:
map keys are distinct; every bucket in the map is live (not disposed, owner
notification installed, key-consistent, non-empty, duplicate-free); bucket
timer handles and the timer facility's live list are in exact one-to-one
correspondence; and both id counters dominate the ids in use. -/
structure WF (w : World) : Prop where
  keysNodup : (w.buckets.map Prod.fst).Nodup
  handlesNodup : (w.timers.live.map Prod.fst).Nodup
  bucketOk : ∀ pb ∈ w.buckets,
    pb.2.delay = pb.1 ∧ pb.2.disposed = false ∧ pb.2.onEmptyAlive = true ∧
      pb.2.subs ≠ [] ∧ (pb.2.subs.map Subscription.id).Nodup
  bucketTimer : ∀ pb ∈ w.buckets,
    ∃ h, pb.2.intervalId = some h ∧ (h, pb.1) ∈ w.timers.live
  timerBucket : ∀ q ∈ w.timers.live,
    ∃ b, mapGet w.buckets q.2 = some b ∧ b.intervalId = some q.1
  handleFresh : ∀ q ∈ w.timers.live, q.1 < w.timers.nextHandle
  subFresh : ∀ pb ∈ w.buckets, ∀ s ∈ pb.2.subs, s.id < w.nextSubId

section MapLemmas

theorem mapGet_eq_some_mem {m : List (Nat × Bucket)} {k : Nat} {b : Bucket}
    (h : mapGet m k = some b) : (k, b) ∈ m := by
  induction m with
  | nil => cases h
  | cons p t ih =>
    by_cases hp : p.1 = k
    · rw [mapGet, if_pos hp] at h
      obtain ⟨p1, p2⟩ := p
      obtain rfl : p2 = b := by injection h
      cases hp
      exact List.mem_cons_self _ _
    · rw [mapGet, if_neg hp] at h
      exact List.mem_cons_of_mem _ (ih h)

theorem mapGet_eq_none_iff {m : List (Nat × Bucket)} {k : Nat} :
    mapGet m k = none ↔ ∀ pb ∈ m, pb.1 ≠ k := by
  induction m with
  | nil => simp [mapGet]
  | cons p t ih =>
    by_cases hp : p.1 = k
    · simp [mapGet, hp]
    · simp [mapGet, hp, ih]

theorem mapGet_of_mem {m : List (Nat × Bucket)} {k : Nat} {b : Bucket}
    (hnd : (m.map Prod.fst).Nodup) (hmem : (k, b) ∈ m) : mapGet m k = some b := by
  induction m with
  | nil => cases hmem
  | cons p t ih =>
    simp only [List.map_cons, List.nodup_cons] at hnd
    rcases List.mem_cons.mp hmem with rfl | hmem2
    · rw [mapGet, if_pos rfl]
    · by_cases hp : p.1 = k
      · exfalso
        exact hnd.1 (hp ▸ List.mem_map.mpr ⟨(k, b), hmem2, rfl⟩)
      · rw [mapGet, if_neg hp]
        exact ih hnd.2 hmem2

theorem mapGet_set_self {m : List (Nat × Bucket)} {k : Nat} {b : Bucket} :
    mapGet (mapSet m k b) k = some b := by
  induction m with
  | nil => simp [mapGet, mapSet]
  | cons p t ih =>
    by_cases hp : p.1 = k
    · rw [mapSet, if_pos hp, mapGet, if_pos rfl]
    · rw [mapSet, if_neg hp, mapGet, if_neg hp]
      exact ih

theorem mapGet_set_ne {m : List (Nat × Bucket)} {k k2 : Nat} {b : Bucket}
    (hne : k2 ≠ k) : mapGet (mapSet m k b) k2 = mapGet m k2 := by
  induction m with
  | nil => simp [mapGet, mapSet, Ne.symm hne]
  | cons p t ih =>
    by_cases hp : p.1 = k
    · have hkk2 : ¬ (k = k2) := fun h => hne h.symm
      have hpk2 : ¬ (p.1 = k2) := by rw [hp]; exact hkk2
      rw [mapSet, if_pos hp, mapGet, if_neg hkk2, mapGet, if_neg hpk2]
    · rw [mapSet, if_neg hp]
      by_cases hp2 : p.1 = k2
      · rw [mapGet, if_pos hp2, mapGet, if_pos hp2]
      · rw [mapGet, if_neg hp2, mapGet, if_neg hp2]
        exact ih

theorem mapGet_delete_self {m : List (Nat × Bucket)} {k : Nat}
    (hnd : (m.map Prod.fst).Nodup) : mapGet (mapDelete m k) k = none := by
  induction m with
  | nil => rfl
  | cons p t ih =>
    simp only [List.map_cons, List.nodup_cons] at hnd
    by_cases hp : p.1 = k
    · rw [mapDelete, if_pos hp]
      rw [mapGet_eq_none_iff]
      intro pb hpb hk
      exact hnd.1 (hp ▸ hk ▸ List.mem_map.mpr ⟨pb, hpb, rfl⟩)
    · rw [mapDelete, if_neg hp, mapGet, if_neg hp]
      exact ih hnd.2

theorem mapGet_delete_ne {m : List (Nat × Bucket)} {k k2 : Nat}
    (hne : k2 ≠ k) : mapGet (mapDelete m k) k2 = mapGet m k2 := by
  induction m with
  | nil => rfl
  | cons p t ih =>
    by_cases hp : p.1 = k
    · have hpk2 : ¬ (p.1 = k2) := by rw [hp]; exact fun h => hne h.symm
      rw [mapDelete, if_pos hp, mapGet, if_neg hpk2]
    · rw [mapDelete, if_neg hp]
      by_cases hp2 : p.1 = k2
      · rw [mapGet, if_pos hp2, mapGet, if_pos hp2]
      · rw [mapGet, if_neg hp2, mapGet, if_neg hp2]
        exact ih

theorem mem_mapSet {m : List (Nat × Bucket)} {k : Nat} {b : Bucket} {pb : Nat × Bucket}
    (h : pb ∈ mapSet m k b) : pb = (k, b) ∨ pb ∈ m := by
  induction m with
  | nil => simpa [mapSet] using h
  | cons p t ih =>
    by_cases hp : p.1 = k
    · rw [mapSet, if_pos hp] at h
      rcases List.mem_cons.mp h with rfl | h2
      · exact Or.inl rfl
      · exact Or.inr (List.mem_cons_of_mem _ h2)
    · rw [mapSet, if_neg hp] at h
      rcases List.mem_cons.mp h with rfl | h2
      · exact Or.inr (List.mem_cons_self _ _)
      · rcases ih h2 with h3 | h3
        · exact Or.inl h3
        · exact Or.inr (List.mem_cons_of_mem _ h3)

theorem mem_mapDelete {m : List (Nat × Bucket)} {k : Nat} {pb : Nat × Bucket}
    (h : pb ∈ mapDelete m k) : pb ∈ m := by
  induction m with
  | nil => cases h
  | cons p t ih =>
    by_cases hp : p.1 = k
    · rw [mapDelete, if_pos hp] at h
      exact List.mem_cons_of_mem _ h
    · rw [mapDelete, if_neg hp] at h
      rcases List.mem_cons.mp h with rfl | h2
      · exact List.mem_cons_self _ _
      · exact List.mem_cons_of_mem _ (ih h2)

theorem keys_mapSet_present {m : List (Nat × Bucket)} {k : Nat} {b b0 : Bucket}
    (h : mapGet m k = some b0) :
    (mapSet m k b).map Prod.fst = m.map Prod.fst := by
  induction m with
  | nil => cases h
  | cons p t ih =>
    by_cases hp : p.1 = k
    · rw [mapSet, if_pos hp]
      simp [hp]
    · rw [mapGet, if_neg hp] at h
      rw [mapSet, if_neg hp, List.map_cons, List.map_cons, ih h]

theorem keys_mapSet_absent {m : List (Nat × Bucket)} {k : Nat} {b : Bucket}
    (h : mapGet m k = none) :
    (mapSet m k b).map Prod.fst = m.map Prod.fst ++ [k] := by
  induction m with
  | nil => rfl
  | cons p t ih =>
    by_cases hp : p.1 = k
    · rw [mapGet, if_pos hp] at h
      cases h
    · rw [mapGet, if_neg hp] at h
      rw [mapSet, if_neg hp, List.map_cons, List.map_cons, ih h, List.cons_append]

theorem length_mapSet_present {m : List (Nat × Bucket)} {k : Nat} {b b0 : Bucket}
    (h : mapGet m k = some b0) :
    (mapSet m k b).length = m.length := by
  have h1 := congrArg List.length (keys_mapSet_present (b := b) h)
  simpa using h1

theorem length_mapSet_absent {m : List (Nat × Bucket)} {k : Nat} {b : Bucket}
    (h : mapGet m k = none) :
    (mapSet m k b).length = m.length + 1 := by
  have h1 := congrArg List.length (keys_mapSet_absent (b := b) h)
  simpa using h1

theorem keys_mapDelete_sublist (m : List (Nat × Bucket)) (k : Nat) :
    List.Sublist ((mapDelete m k).map Prod.fst) (m.map Prod.fst) := by
  induction m with
  | nil => exact List.Sublist.refl _
  | cons p t ih =>
    by_cases hp : p.1 = k
    · rw [mapDelete, if_pos hp, List.map_cons]
      exact (List.Sublist.refl _).cons _
    · rw [mapDelete, if_neg hp, List.map_cons, List.map_cons]
      exact ih.cons₂ _

theorem mapDelete_mapSet_cancel {m : List (Nat × Bucket)} {k : Nat} {b : Bucket} :
    mapDelete (mapSet m k b) k = mapDelete m k := by
  induction m with
  | nil => simp [mapSet, mapDelete]
  | cons p t ih =>
    by_cases hp : p.1 = k
    · rw [mapSet, if_pos hp, mapDelete, if_pos rfl, mapDelete, if_pos hp]
    · rw [mapSet, if_neg hp, mapDelete, if_neg hp, mapDelete, if_neg hp, ih]

theorem length_mapDelete_present {m : List (Nat × Bucket)} {k : Nat} {b : Bucket}
    (h : mapGet m k = some b) :
    (mapDelete m k).length + 1 = m.length := by
  induction m with
  | nil => cases h
  | cons p t ih =>
    by_cases hp : p.1 = k
    · rw [mapDelete, if_pos hp, List.length_cons]
    · rw [mapGet, if_neg hp] at h
      rw [mapDelete, if_neg hp, List.length_cons, List.length_cons, ih h]

theorem pair_eq_of_fst_nodup {α β : Type} {l : List (α × β)}
    (hnd : (l.map Prod.fst).Nodup) {a : α} {x y : β}
    (hx : (a, x) ∈ l) (hy : (a, y) ∈ l) : x = y := by
  induction l with
  | nil => cases hx
  | cons q t ih =>
    simp only [List.map_cons, List.nodup_cons] at hnd
    rcases List.mem_cons.mp hx with rfl | hx2
    · rcases List.mem_cons.mp hy with h2 | hy2
      · cases h2; rfl
      · exact absurd (List.mem_map.mpr ⟨(a, y), hy2, rfl⟩) hnd.1
    · rcases List.mem_cons.mp hy with rfl | hy2
      · exact absurd (List.mem_map.mpr ⟨(a, x), hx2, rfl⟩) hnd.1
      · exact ih hnd.2 hx2 hy2

end MapLemmas

section SetLemmas

theorem not_mem_keys_of_mapGet_none {m : List (Nat × Bucket)} {k : Nat}
    (h : mapGet m k = none) : k ∉ m.map Prod.fst := by
  intro hk
  obtain ⟨pb, hpb, he⟩ := List.mem_map.mp hk
  exact mapGet_eq_none_iff.mp h pb hpb he

theorem setAdd_fresh {subs : List Subscription} {n : Nat} {o : Bool}
    (h : ∀ s ∈ subs, s.id < n) : setAdd subs ⟨n, o⟩ = subs ++ [⟨n, o⟩] := by
  unfold setAdd
  rw [if_neg]
  intro hany
  obtain ⟨s, hs, he⟩ := List.any_eq_true.mp hany
  have : s.id = n := by simpa using he
  exact absurd this (Nat.ne_of_lt (h s hs))

theorem setDelete_eq_self {subs : List Subscription} {sid : Nat}
    (h : ∀ s ∈ subs, s.id ≠ sid) : setDelete subs sid = subs := by
  unfold setDelete
  rw [List.filter_eq_self]
  intro s hs
  simpa using h s hs

theorem mem_setDelete_of_mem {subs : List Subscription} {sid : Nat} {s : Subscription}
    (hs : s ∈ subs) (hne : s.id ≠ sid) : s ∈ setDelete subs sid :=
  List.mem_filter.mpr ⟨hs, by simpa using hne⟩

theorem mem_of_mem_setDelete {subs : List Subscription} {sid : Nat} {s : Subscription}
    (hs : s ∈ setDelete subs sid) : s ∈ subs ∧ s.id ≠ sid :=
  ⟨List.mem_of_mem_filter hs, by simpa using List.of_mem_filter hs⟩

theorem setDelete_ids_nodup {subs : List Subscription} {sid : Nat}
    (h : (subs.map Subscription.id).Nodup) :
    ((setDelete subs sid).map Subscription.id).Nodup :=
  List.Nodup.sublist (List.Sublist.map _ (List.filter_sublist _)) h

theorem eq_singleton_of_setDelete_nil {subs : List Subscription} {s : Subscription}
    (hnd : (subs.map Subscription.id).Nodup) (hs : s ∈ subs)
    (h : setDelete subs s.id = []) : subs = [s] := by
  have hall : ∀ x ∈ subs, x.id = s.id := by
    intro x hx
    by_contra hne
    have := mem_setDelete_of_mem hx hne
    rw [h] at this
    cases this
  cases subs with
  | nil => cases hs
  | cons a t =>
    simp only [List.map_cons, List.nodup_cons] at hnd
    have ha : a.id = s.id := hall a (List.mem_cons_self _ _)
    have ht : t = [] := by
      rw [List.eq_nil_iff_forall_not_mem]
      intro y hy
      have hy2 : y.id = s.id := hall y (List.mem_cons_of_mem _ hy)
      exact hnd.1 (ha ▸ hy2 ▸ List.mem_map.mpr ⟨y, hy, rfl⟩)
    subst ht
    rcases List.mem_cons.mp hs with rfl | h2
    · rfl
    · cases h2

theorem length_eq_one_of_mem_all_eq {α : Type} {l : List α} {a : α}
    (hnd : l.Nodup) (ha : a ∈ l) (hall : ∀ x ∈ l, x = a) : l.length = 1 := by
  cases l with
  | nil => cases ha
  | cons x t =>
    simp only [List.nodup_cons] at hnd
    have hx : x = a := hall x (List.mem_cons_self _ _)
    have ht : t = [] := by
      rw [List.eq_nil_iff_forall_not_mem]
      intro y hy
      have : y = a := hall y (List.mem_cons_of_mem _ hy)
      exact hnd.1 (hx ▸ this ▸ hy)
    rw [ht]
    rfl

end SetLemmas

section TimerCount

theorem countTimersAt_of_bucket {w : World} {d : Nat} {b : Bucket}
    (hWF : WF w) (hb : mapGet w.buckets d = some b) : countTimersAt w d = 1 := by
  obtain ⟨h, hid, hlive⟩ := hWF.bucketTimer (d, b) (mapGet_eq_some_mem hb)
  unfold countTimersAt
  apply length_eq_one_of_mem_all_eq (a := (h, d))
  · exact List.Nodup.filter _ (List.Nodup.of_map _ hWF.handlesNodup)
  · exact List.mem_filter.mpr ⟨hlive, by simp⟩
  · intro q hq
    obtain ⟨hqlive, hqd⟩ := List.mem_filter.mp hq
    have hqd2 : q.2 = d := by simpa using hqd
    obtain ⟨b2, hb2, hb2id⟩ := hWF.timerBucket q hqlive
    rw [hqd2, hb] at hb2
    obtain rfl : b2 = b := by cases hb2; rfl
    have : q.1 = h := by
      rw [hid] at hb2id
      cases hb2id
      rfl
    cases q
    simp_all

theorem countTimersAt_of_none {w : World} {d : Nat}
    (hWF : WF w) (hb : mapGet w.buckets d = none) : countTimersAt w d = 0 := by
  unfold countTimersAt
  rw [List.length_eq_zero, List.filter_eq_nil_iff]
  intro q hq
  obtain ⟨b2, hb2, _⟩ := hWF.timerBucket q hq
  intro hqd
  have hqd2 : q.2 = d := by simpa using hqd
  rw [hqd2, hb] at hb2
  cases hb2

end TimerCount

section SubscribeSpec

/-- What one `run`/`once` call does: it succeeds, returns the fresh
subscription id, appends the subscription to the (possibly fresh) bucket at
`delay`, leaves every other period alone, and preserves well-formedness. -/
theorem subscribe_spec {w : World} (d : Nat) (o : Bool) (hWF : WF w) :
    ∃ w2, subscribe w d o = .ok (w2, w.nextSubId) ∧ WF w2 ∧
      w2.nextSubId = w.nextSubId + 1 ∧
      (∀ q, q ≠ d → mapGet w2.buckets q = mapGet w.buckets q) ∧
      getSubscriptionCount w2 d = getSubscriptionCount w d + 1 ∧
      (∃ b2, mapGet w2.buckets d = some b2 ∧
        b2.subs = (match mapGet w.buckets d with
                   | some b => b.subs
                   | none => []) ++ [⟨w.nextSubId, o⟩]) ∧
      activeIntervalCount w2 =
        activeIntervalCount w +
          (match mapGet w.buckets d with | some _ => 0 | none => 1) := by
  cases hb : mapGet w.buckets d with
  | none =>
    refine ⟨⟨⟨w.timers.nextHandle + 1, w.timers.live ++ [(w.timers.nextHandle, d)]⟩,
      mapSet w.buckets d ⟨d, false, some w.timers.nextHandle, true, [⟨w.nextSubId, o⟩]⟩,
      w.nextSubId + 1⟩, ?_, ?_, rfl, ?_, ?_, ?_, ?_⟩
    · simp [subscribe, hb, bucketAdd, freshBucket, tryStart, setAdd]
    · constructor
      · rw [keys_mapSet_absent hb]
        simp only [List.nodup_append, List.nodup_cons, List.nodup_nil]
        exact ⟨hWF.keysNodup, by simp, by
          simpa [List.disjoint_singleton] using not_mem_keys_of_mapGet_none hb⟩
      · simp only [List.map_append, List.map_cons, List.map_nil, List.nodup_append,
          List.nodup_cons, List.nodup_nil]
        refine ⟨hWF.handlesNodup, by simp, ?_⟩
        intro a ha
        simp only [List.mem_singleton]
        intro he
        obtain ⟨q, hq, hqe⟩ := List.mem_map.mp ha
        have := hWF.handleFresh q hq
        omega
      · intro pb hpb
        rcases mem_mapSet hpb with rfl | hold
        · exact ⟨rfl, rfl, rfl, by simp, by simp⟩
        · exact hWF.bucketOk pb hold
      · intro pb hpb
        rcases mem_mapSet hpb with rfl | hold
        · exact ⟨w.timers.nextHandle, rfl, by simp⟩
        · obtain ⟨h, hid, hlive⟩ := hWF.bucketTimer pb hold
          exact ⟨h, hid, by simp [hlive]⟩
      · intro q hq
        rcases List.mem_append.mp hq with hqold | hqnew
        · obtain ⟨b3, hb3, hb3id⟩ := hWF.timerBucket q hqold
          have hq2 : q.2 ≠ d := by
            intro he
            rw [he, hb] at hb3
            cases hb3
          exact ⟨b3, by rw [mapGet_set_ne hq2]; exact hb3, hb3id⟩
        · obtain rfl : q = (w.timers.nextHandle, d) := by simpa using hqnew
          exact ⟨_, mapGet_set_self, rfl⟩
      · intro q hq
        rcases List.mem_append.mp hq with hqold | hqnew
        · exact Nat.lt_succ_of_lt (hWF.handleFresh q hqold)
        · obtain rfl : q = (w.timers.nextHandle, d) := by simpa using hqnew
          simp
      · intro pb hpb s hs
        rcases mem_mapSet hpb with rfl | hold
        · obtain rfl : s = ⟨w.nextSubId, o⟩ := by simpa using hs
          simp
        · exact Nat.lt_succ_of_lt (hWF.subFresh pb hold s hs)
    · intro q hq
      exact mapGet_set_ne hq
    · simp [getSubscriptionCount, mapGet_set_self, hb]
    · exact ⟨_, mapGet_set_self, by simp [hb]⟩
    · simp [activeIntervalCount, length_mapSet_absent hb, hb]
  | some b =>
    have hmem := mapGet_eq_some_mem hb
    obtain ⟨hdelay, hdisp, halive, hne, hnd⟩ := hWF.bucketOk (d, b) hmem
    obtain ⟨h, hid, hlive⟩ := hWF.bucketTimer (d, b) hmem
    have hfresh : ∀ s ∈ b.subs, s.id < w.nextSubId := hWF.subFresh (d, b) hmem
    have hadd : setAdd b.subs ⟨w.nextSubId, o⟩ = b.subs ++ [⟨w.nextSubId, o⟩] :=
      setAdd_fresh hfresh
    refine ⟨⟨w.timers,
      mapSet w.buckets d { b with subs := b.subs ++ [⟨w.nextSubId, o⟩] },
      w.nextSubId + 1⟩, ?_, ?_, rfl, ?_, ?_, ?_, ?_⟩
    · have hdisp2 : b.disposed = false := hdisp
      have hid2 : b.intervalId = some h := hid
      simp [subscribe, hb, bucketAdd, hdisp2, hadd, tryStart, hid2]
    · constructor
      · rw [keys_mapSet_present hb]
        exact hWF.keysNodup
      · exact hWF.handlesNodup
      · intro pb hpb
        rcases mem_mapSet hpb with rfl | hold
        · refine ⟨hdelay, hdisp, halive, by simp, ?_⟩
          simp only [List.map_append, List.map_cons, List.map_nil, List.nodup_append,
            List.nodup_cons, List.nodup_nil]
          refine ⟨hnd, by simp, ?_⟩
          intro a ha
          simp only [List.mem_singleton]
          intro he
          obtain ⟨s, hsmem, hse⟩ := List.mem_map.mp ha
          have := hfresh s hsmem
          omega
        · exact hWF.bucketOk pb hold
      · intro pb hpb
        rcases mem_mapSet hpb with rfl | hold
        · exact ⟨h, hid, hlive⟩
        · exact hWF.bucketTimer pb hold
      · intro q hq
        obtain ⟨b3, hb3, hb3id⟩ := hWF.timerBucket q hq
        by_cases hq2 : q.2 = d
        · rw [hq2, hb] at hb3
          obtain rfl : b3 = b := by cases hb3; rfl
          refine ⟨_, by rw [hq2]; exact mapGet_set_self, ?_⟩
          simpa using hb3id
        · exact ⟨b3, by rw [mapGet_set_ne hq2]; exact hb3, hb3id⟩
      · exact hWF.handleFresh
      · intro pb hpb s hs
        rcases mem_mapSet hpb with rfl | hold
        · simp only [] at hs
          rcases List.mem_append.mp hs with hs1 | hs2
          · exact Nat.lt_succ_of_lt (hfresh s hs1)
          · obtain rfl : s = ⟨w.nextSubId, o⟩ := by simpa using hs2
            exact Nat.lt_succ_self _
        · exact Nat.lt_succ_of_lt (hWF.subFresh pb hold s hs)
    · intro q hq
      exact mapGet_set_ne hq
    · simp [getSubscriptionCount, mapGet_set_self, hb]
    · exact ⟨_, mapGet_set_self, by simp⟩
    · simp [activeIntervalCount, length_mapSet_present hb]

end SubscribeSpec

section RemoveSpec

/-- What `bucket.remove(subscription)` does for a bucket that is (still) in the
pool's map: it succeeds; when the deleted subscription was the last one the
timer is cancelled and the period key leaves the map, otherwise only the
subscription set shrinks.  Well-formedness is preserved and other periods are
untouched. -/
theorem removeFromBucket_spec {w : World} {d : Nat} {b : Bucket} (sid : Nat)
    (hWF : WF w) (hb : mapGet w.buckets d = some b) :
    ∃ w2, removeFromBucket w d b sid = .ok w2 ∧ WF w2 ∧
      w2.nextSubId = w.nextSubId ∧
      (∀ q, q ≠ d → mapGet w2.buckets q = mapGet w.buckets q) ∧
      (if setDelete b.subs sid = [] then
         mapGet w2.buckets d = none ∧ countTimersAt w2 d = 0 ∧
         activeIntervalCount w2 + 1 = activeIntervalCount w
       else
         mapGet w2.buckets d = some { b with subs := setDelete b.subs sid } ∧
         activeIntervalCount w2 = activeIntervalCount w) := by
  have hmem := mapGet_eq_some_mem hb
  obtain ⟨hdelay, hdisp, halive, hne, hnd⟩ := hWF.bucketOk (d, b) hmem
  obtain ⟨h, hid, hlive⟩ := hWF.bucketTimer (d, b) hmem
  have hdisp2 : b.disposed = false := hdisp
  have halive2 : b.onEmptyAlive = true := halive
  have hid2 : b.intervalId = some h := hid
  by_cases hdel : setDelete b.subs sid = []
  · refine ⟨⟨⟨w.timers.nextHandle, w.timers.live.filter (fun q => q.1 ≠ h)⟩,
      mapDelete w.buckets d, w.nextSubId⟩, ?_, ?_, rfl, ?_, ?_⟩
    · simp [removeFromBucket, bucketRemove, bucketStop, bucketDispose, onEmptyBucket,
        hdisp2, hid2, halive2, hdel, mapDelete_mapSet_cancel]
    · constructor
      · exact List.Nodup.sublist (keys_mapDelete_sublist _ _) hWF.keysNodup
      · exact List.Nodup.sublist (List.Sublist.map _ (List.filter_sublist _)) hWF.handlesNodup
      · intro pb hpb
        exact hWF.bucketOk pb (mem_mapDelete hpb)
      · intro pb hpb
        obtain ⟨h3, hid3, hlive3⟩ := hWF.bucketTimer pb (mem_mapDelete hpb)
        have hpbd : pb.1 ≠ d := by
          have hnone : mapGet (mapDelete w.buckets d) d = none :=
            mapGet_delete_self hWF.keysNodup
          have := mapGet_eq_none_iff.mp hnone pb hpb
          exact this
        have hh3 : h3 ≠ h := by
          intro he
          subst he
          exact hpbd (pair_eq_of_fst_nodup hWF.handlesNodup hlive3 hlive)
        exact ⟨h3, hid3, List.mem_filter.mpr ⟨hlive3, by simpa using hh3⟩⟩
      · intro q hq
        obtain ⟨hqlive, hqh⟩ := List.mem_filter.mp hq
        have hqh2 : q.1 ≠ h := by simpa using hqh
        obtain ⟨b3, hb3, hb3id⟩ := hWF.timerBucket q hqlive
        have hq2 : q.2 ≠ d := by
          intro he
          rw [he, hb] at hb3
          obtain rfl : b3 = b := by cases hb3; rfl
          rw [hid2] at hb3id
          cases hb3id
          exact hqh2 rfl
        exact ⟨b3, by rw [mapGet_delete_ne hq2]; exact hb3, hb3id⟩
      · intro q hq
        exact hWF.handleFresh q (List.mem_of_mem_filter hq)
      · intro pb hpb s hs
        exact hWF.subFresh pb (mem_mapDelete hpb) s hs
    · intro q hq
      exact mapGet_delete_ne hq
    · rw [if_pos hdel]
      refine ⟨mapGet_delete_self hWF.keysNodup, ?_, ?_⟩
      · unfold countTimersAt
        rw [List.length_eq_zero, List.filter_eq_nil_iff]
        intro q hq hqd
        obtain ⟨hqlive, hqh⟩ := List.mem_filter.mp hq
        have hqh2 : q.1 ≠ h := by simpa using hqh
        have hqd2 : q.2 = d := by simpa using hqd
        obtain ⟨b3, hb3, hb3id⟩ := hWF.timerBucket q hqlive
        rw [hqd2, hb] at hb3
        obtain rfl : b3 = b := by cases hb3; rfl
        rw [hid2] at hb3id
        cases hb3id
        exact hqh2 rfl
      · exact length_mapDelete_present hb
  · refine ⟨⟨w.timers, mapSet w.buckets d { b with subs := setDelete b.subs sid },
      w.nextSubId⟩, ?_, ?_, rfl, ?_, ?_⟩
    · simp [removeFromBucket, bucketRemove, hdisp2, List.length_eq_zero, hdel]
    · constructor
      · rw [keys_mapSet_present hb]
        exact hWF.keysNodup
      · exact hWF.handlesNodup
      · intro pb hpb
        rcases mem_mapSet hpb with rfl | hold
        · exact ⟨hdelay, hdisp, halive, hdel, setDelete_ids_nodup hnd⟩
        · exact hWF.bucketOk pb hold
      · intro pb hpb
        rcases mem_mapSet hpb with rfl | hold
        · exact ⟨h, hid2, hlive⟩
        · exact hWF.bucketTimer pb hold
      · intro q hq
        obtain ⟨b3, hb3, hb3id⟩ := hWF.timerBucket q hq
        by_cases hq2 : q.2 = d
        · rw [hq2, hb] at hb3
          obtain rfl : b3 = b := by cases hb3; rfl
          refine ⟨_, by rw [hq2]; exact mapGet_set_self, ?_⟩
          simpa using hb3id
        · exact ⟨b3, by rw [mapGet_set_ne hq2]; exact hb3, hb3id⟩
      · exact hWF.handleFresh
      · intro pb hpb s hs
        rcases mem_mapSet hpb with rfl | hold
        · exact hWF.subFresh (d, b) hmem s (mem_of_mem_setDelete hs).1
        · exact hWF.subFresh pb hold s hs
    · intro q hq
      exact mapGet_set_ne hq
    · rw [if_neg hdel]
      exact ⟨mapGet_set_self, length_mapSet_present hb⟩

/-- The unsubscribe capability never throws and behaves like
`removeFromBucket` when the bucket is present, like a no-op otherwise. -/
theorem unsubscribe_spec {w : World} (d sid : Nat) (hWF : WF w) :
    ∃ w2, unsubscribe w d sid = .ok w2 ∧ WF w2 ∧ w2.nextSubId = w.nextSubId ∧
      (∀ q, q ≠ d → mapGet w2.buckets q = mapGet w.buckets q) := by
  cases hb : mapGet w.buckets d with
  | none => exact ⟨w, by simp [unsubscribe, hb], hWF, rfl, fun q _ => rfl⟩
  | some b =>
    obtain ⟨w2, heq, hWF2, hsid, hother, _⟩ := removeFromBucket_spec sid hWF hb
    exact ⟨w2, by simp [unsubscribe, hb, heq], hWF2, hsid, hother⟩

end RemoveSpec

section TickSpec

theorem eq_of_id_of_nodup {l : List Subscription}
    (hnd : (l.map Subscription.id).Nodup) {x y : Subscription}
    (hx : x ∈ l) (hy : y ∈ l) (he : x.id = y.id) : x = y := by
  induction l with
  | nil => cases hx
  | cons a t ih =>
    simp only [List.map_cons, List.nodup_cons] at hnd
    rcases List.mem_cons.mp hx with rfl | hx2
    · rcases List.mem_cons.mp hy with rfl | hy2
      · rfl
      · exact absurd (he ▸ List.mem_map.mpr ⟨y, hy2, rfl⟩) hnd.1
    · rcases List.mem_cons.mp hy with rfl | hy2
      · exact absurd (he ▸ List.mem_map.mpr ⟨x, hx2, rfl⟩) hnd.1
      · exact ih hnd.2 hx2 hy2

/-- Master lemma for the tick loop: running `forEach` over the not-yet-visited
snapshot `rem` (whose elements are still in the bucket, with distinct ids)
succeeds, emits exactly the invocation/error events of `rem` in snapshot
order, and leaves the bucket holding exactly its subscriptions minus the
`once` elements of `rem` (the bucket leaves the map when that set is empty). -/
theorem tickGo_spec (beh : Nat → Bool) (d : Nat) (rem : List Subscription)
    (w : World) (b : Bucket) (acc : List TickEvent)
    (hWF : WF w) (hb : mapGet w.buckets d = some b)
    (hsub : ∀ x ∈ rem, x ∈ b.subs) (hndrem : (rem.map Subscription.id).Nodup) :
    ∃ w2, tickGo beh d rem w acc = .ok (w2, acc ++ tickTrace beh rem) ∧ WF w2 ∧
      w2.nextSubId = w.nextSubId ∧
      (∀ q, q ≠ d → mapGet w2.buckets q = mapGet w.buckets q) ∧
      (if b.subs.filter (fun x => !(x.once && rem.any (fun r => r.id = x.id))) = [] then
         mapGet w2.buckets d = none
       else
         mapGet w2.buckets d =
           some { b with
             subs := b.subs.filter (fun x => !(x.once && rem.any (fun r => r.id = x.id))) }) := by
  induction rem generalizing w b acc with
  | nil =>
    have hne : b.subs ≠ [] := (hWF.bucketOk (d, b) (mapGet_eq_some_mem hb)).2.2.2.1
    have hfilter : b.subs.filter
        (fun x => !(x.once && List.any ([] : List Subscription) (fun r => r.id = x.id))) =
        b.subs := by
      simp
    refine ⟨w, by simp [tickGo, tickTrace], hWF, rfl, fun q _ => rfl, ?_⟩
    rw [hfilter, if_neg hne]
    exact hb
  | cons s rest ih =>
    have hbOk := hWF.bucketOk (d, b) (mapGet_eq_some_mem hb)
    have hndsubs : (b.subs.map Subscription.id).Nodup := hbOk.2.2.2.2
    have hsmem : s ∈ b.subs := hsub s (List.mem_cons_self _ _)
    have hany : b.subs.any (fun x => x.id = s.id) = true :=
      List.any_eq_true.mpr ⟨s, hsmem, by simp⟩
    simp only [List.map_cons, List.nodup_cons] at hndrem
    have hsidrest : ∀ x ∈ rest, x.id ≠ s.id := by
      intro x hx he
      exact hndrem.1 (he ▸ List.mem_map.mpr ⟨x, hx, rfl⟩)
    cases honce : s.once with
    | true =>
      by_cases hdel : setDelete b.subs s.id = []
      · have hsingle : b.subs = [s] := eq_singleton_of_setDelete_nil hndsubs hsmem hdel
        have hrest : rest = [] := by
          rw [List.eq_nil_iff_forall_not_mem]
          intro x hx
          have hxb : x ∈ b.subs := hsub x (List.mem_cons_of_mem _ hx)
          rw [hsingle] at hxb
          obtain rfl : x = s := by simpa using hxb
          exact hsidrest x hx rfl
        subst hrest
        obtain ⟨w2, heq, hWF2, hsid, hother, hfin⟩ := removeFromBucket_spec s.id hWF hb
        rw [if_pos hdel] at hfin
        refine ⟨w2, ?_, hWF2, hsid, hother, ?_⟩
        · simp only [tickGo, hb]
          rw [if_pos hany, if_pos honce]
          simp only [heq]
          simp [tickGo, tickTrace]
        · have hcond : b.subs.filter
              (fun x => !(x.once && List.any [s] (fun r => r.id = x.id))) = [] := by
            rw [hsingle]
            simp [honce]
          rw [if_pos hcond]
          exact hfin.1
      · obtain ⟨w2, heq, hWF2, hsid, hother, hfin⟩ := removeFromBucket_spec s.id hWF hb
        rw [if_neg hdel] at hfin
        obtain ⟨hb2, _⟩ := hfin
        have hsub2 : ∀ x ∈ rest, x ∈ setDelete b.subs s.id := by
          intro x hx
          exact mem_setDelete_of_mem (hsub x (List.mem_cons_of_mem _ hx)) (hsidrest x hx)
        obtain ⟨w3, heq3, hWF3, hsid3, hother3, hfin3⟩ :=
          ih w2 _ (acc ++ notifyEvents beh s) hWF2 hb2 hsub2 hndrem.2
        refine ⟨w3, ?_, hWF3, by rw [hsid3, hsid], ?_, ?_⟩
        · simp only [tickGo, hb]
          rw [if_pos hany, if_pos honce]
          simp only [heq]
          rw [heq3]
          simp [tickTrace]
        · intro q hq
          rw [hother3 q hq, hother q hq]
        · have hcombine : (setDelete b.subs s.id).filter
              (fun x => !(x.once && rest.any (fun r => r.id = x.id))) =
              b.subs.filter
                (fun x => !(x.once && List.any (s :: rest) (fun r => r.id = x.id))) := by
            unfold setDelete
            rw [List.filter_filter]
            apply List.filter_congr
            intro x hx
            by_cases hxid : x.id = s.id
            · obtain rfl : x = s := eq_of_id_of_nodup hndsubs hx hsmem hxid
              simp [honce]
            · have hsx : ¬ (s.id = x.id) := fun he => hxid he.symm
              simp [hxid, hsx]
          rw [← hcombine]
          exact hfin3
    | false =>
      have hsub2 : ∀ x ∈ rest, x ∈ b.subs :=
        fun x hx => hsub x (List.mem_cons_of_mem _ hx)
      obtain ⟨w3, heq3, hWF3, hsid3, hother3, hfin3⟩ :=
        ih w b (acc ++ notifyEvents beh s) hWF hb hsub2 hndrem.2
      refine ⟨w3, ?_, hWF3, hsid3, hother3, ?_⟩
      · have honce2 : ¬ (s.once = true) := by simp [honce]
        simp only [tickGo, hb]
        rw [if_pos hany, if_neg honce2]
        rw [heq3]
        simp [tickTrace]
      · have hcombine : b.subs.filter
            (fun x => !(x.once && rest.any (fun r => r.id = x.id))) =
            b.subs.filter
              (fun x => !(x.once && List.any (s :: rest) (fun r => r.id = x.id))) := by
          apply List.filter_congr
          intro x hx
          by_cases hxid : x.id = s.id
          · obtain rfl : x = s := eq_of_id_of_nodup hndsubs hx hsmem hxid
            simp [honce]
          · have hsx : ¬ (s.id = x.id) := fun he => hxid he.symm
            simp [hxid, hsx]
        rw [← hcombine]
        exact hfin3

end TickSpec

section HandleTickSpec

/-- One tick over the bucket at `d`: the trace is exactly the per-subscription
events of the full subscription list in insertion order, and afterwards the
bucket holds exactly its non-`once` subscriptions (leaving the map when none
remain). -/
theorem handleTick_spec (beh : Nat → Bool) {w : World} {d : Nat} {b : Bucket}
    (hWF : WF w) (hb : mapGet w.buckets d = some b) :
    ∃ w2, handleTick beh w d = .ok (w2, tickTrace beh b.subs) ∧ WF w2 ∧
      w2.nextSubId = w.nextSubId ∧
      (∀ q, q ≠ d → mapGet w2.buckets q = mapGet w.buckets q) ∧
      (if b.subs.filter (fun x => !x.once) = [] then mapGet w2.buckets d = none
       else mapGet w2.buckets d = some { b with subs := b.subs.filter (fun x => !x.once) }) := by
  have hndsubs : (b.subs.map Subscription.id).Nodup :=
    (hWF.bucketOk (d, b) (mapGet_eq_some_mem hb)).2.2.2.2
  obtain ⟨w2, heq, hWF2, hsid, hother, hfin⟩ :=
    tickGo_spec beh d b.subs w b [] hWF hb (fun x hx => hx) hndsubs
  have hfilter : b.subs.filter
      (fun x => !(x.once && b.subs.any (fun r => r.id = x.id))) =
      b.subs.filter (fun x => !x.once) := by
    apply List.filter_congr
    intro x hx
    have hany : b.subs.any (fun r => r.id = x.id) = true :=
      List.any_eq_true.mpr ⟨x, hx, by simp⟩
    rw [hany, Bool.and_true]
  rw [hfilter] at hfin
  refine ⟨w2, ?_, hWF2, hsid, hother, hfin⟩
  simp only [handleTick, hb]
  rw [heq]
  simp

/-- A tick for a period with no bucket does nothing (a cancelled handle never
fires; the guard mirrors that no handler is installed). -/
theorem handleTick_none (beh : Nat → Bool) {w : World} {d : Nat}
    (hb : mapGet w.buckets d = none) : handleTick beh w d = .ok (w, []) := by
  simp [handleTick, hb]

theorem tickTrace_filter_invoked (beh : Nat → Bool) (l : List Subscription) :
    (tickTrace beh l).filter TickEvent.isInvoked =
      l.map (fun s => TickEvent.invoked s.id) := by
  induction l with
  | nil => rfl
  | cons s t ih =>
    simp only [tickTrace] at ih
    by_cases hbs : beh s.id = true
    · simp [tickTrace, notifyEvents, hbs, TickEvent.isInvoked, ih]
    · simp [tickTrace, notifyEvents, hbs, TickEvent.isInvoked, ih]

theorem invoked_mem_tickTrace (beh : Nat → Bool) {l : List Subscription}
    {s : Subscription} (hs : s ∈ l) : TickEvent.invoked s.id ∈ tickTrace beh l := by
  unfold tickTrace
  exact List.mem_flatMap.mpr ⟨s, hs, by simp [notifyEvents]⟩

theorem errorLogged_mem_tickTrace (beh : Nat → Bool) {l : List Subscription}
    {s : Subscription} (hs : s ∈ l) (hbs : beh s.id = true) :
    TickEvent.errorLogged s.id ∈ tickTrace beh l := by
  unfold tickTrace
  exact List.mem_flatMap.mpr ⟨s, hs, by simp [notifyEvents, hbs]⟩

theorem count_invoked_notifyEvents (beh : Nat → Bool) (x : Subscription) (i : Nat) :
    (notifyEvents beh x).count (TickEvent.invoked i) = if x.id = i then 1 else 0 := by
  by_cases hxi : x.id = i
  · subst hxi
    by_cases hbs : beh x.id = true <;> simp [notifyEvents, hbs, List.count_cons]
  · by_cases hbs : beh x.id = true <;> simp [notifyEvents, hbs, List.count_cons, hxi]

theorem count_invoked_tickTrace (beh : Nat → Bool) (l : List Subscription) (i : Nat) :
    (tickTrace beh l).count (TickEvent.invoked i) =
      (l.map Subscription.id).count i := by
  induction l with
  | nil => rfl
  | cons s t ih =>
    rw [tickTrace, List.flatMap_cons, List.count_append]
    rw [List.map_cons, List.count_cons]
    rw [count_invoked_notifyEvents]
    rw [tickTrace] at ih
    rw [ih]
    by_cases hsi : s.id = i <;> simp [hsi, Nat.add_comm]

theorem not_invoked_tickTrace (beh : Nat → Bool) {l : List Subscription} {i : Nat}
    (h : i ∉ l.map Subscription.id) : TickEvent.invoked i ∉ tickTrace beh l := by
  intro hmem
  have h2 : TickEvent.invoked i ∈ (tickTrace beh l).filter TickEvent.isInvoked :=
    List.mem_filter.mpr ⟨hmem, rfl⟩
  rw [tickTrace_filter_invoked] at h2
  obtain ⟨s, hs, he⟩ := List.mem_map.mp h2
  have hsi : s.id = i := by injection he
  exact h (hsi ▸ List.mem_map.mpr ⟨s, hs, rfl⟩)

/-- Repeated ticks at `d` never invoke an id that is no longer (or never was)
in the bucket at `d`, and they keep it out. -/
theorem runTicks_no_invoke (beh : Nat → Bool) (d i : Nat) (m : Nat) :
    ∀ w, WF w →
    (∀ b, mapGet w.buckets d = some b → i ∉ b.subs.map Subscription.id) →
    ∃ w2 evs, runTicks beh d m w = .ok (w2, evs) ∧ WF w2 ∧
      TickEvent.invoked i ∉ evs ∧
      (∀ b, mapGet w2.buckets d = some b → i ∉ b.subs.map Subscription.id) := by
  induction m with
  | zero => exact fun w hWF hout => ⟨w, [], rfl, hWF, by simp, hout⟩
  | succ n ih =>
    intro w hWF hout
    cases hb : mapGet w.buckets d with
    | none =>
      obtain ⟨w2, evs, heq, hWF2, hni, hout2⟩ := ih w hWF hout
      refine ⟨w2, [] ++ evs, ?_, hWF2, by simpa using hni, hout2⟩
      simp [runTicks, handleTick_none beh hb, heq]
    | some b =>
      obtain ⟨w1, heq1, hWF1, _, _, hfin⟩ := handleTick_spec beh hWF hb
      have hout1 : ∀ b2, mapGet w1.buckets d = some b2 →
          i ∉ b2.subs.map Subscription.id := by
        intro b2 hb2
        by_cases hcond : b.subs.filter (fun x => !x.once) = []
        · rw [if_pos hcond] at hfin
          rw [hfin] at hb2
          cases hb2
        · rw [if_neg hcond] at hfin
          rw [hfin] at hb2
          obtain rfl : b2 = { b with subs := b.subs.filter (fun x => !x.once) } := by
            cases hb2; rfl
          intro hmem
          obtain ⟨s, hs, hsid⟩ := List.mem_map.mp hmem
          exact hout b hb (hsid ▸ List.mem_map.mpr ⟨s, List.mem_of_mem_filter hs, rfl⟩)
      obtain ⟨w2, evs, heq2, hWF2, hni, hout2⟩ := ih w1 hWF1 hout1
      refine ⟨w2, tickTrace beh b.subs ++ evs, ?_, hWF2, ?_, hout2⟩
      · simp [runTicks, heq1, heq2]
      · intro hmem
        rcases List.mem_append.mp hmem with h1 | h2
        · exact not_invoked_tickTrace beh (hout b hb) h1
        · exact hni h2

end HandleTickSpec

section ManySubscribe

theorem subscribeMany_spec (d : Nat) (os : List Bool) :
    ∀ w, WF w →
    ∃ w2, subscribeMany d w os = .ok w2 ∧ WF w2 ∧
      getSubscriptionCount w2 d = getSubscriptionCount w d + os.length ∧
      (os ≠ [] → ∃ b2, mapGet w2.buckets d = some b2) := by
  induction os with
  | nil =>
    intro w hWF
    exact ⟨w, rfl, hWF, by simp, fun h => absurd rfl h⟩
  | cons o os ih =>
    intro w hWF
    obtain ⟨w1, heq1, hWF1, _, _, hcount1, ⟨b1, hb1, _⟩, _⟩ := subscribe_spec d o hWF
    obtain ⟨w2, heq2, hWF2, hcount2, hbucket2⟩ := ih w1 hWF1
    refine ⟨w2, ?_, hWF2, ?_, ?_⟩
    · simp [subscribeMany, heq1, heq2]
    · rw [hcount2, hcount1, List.length_cons]
      omega
    · intro _
      cases hos : os with
      | nil =>
        subst hos
        obtain rfl : w2 = w1 := by
          rw [subscribeMany] at heq2
          cases heq2
          rfl
        exact ⟨b1, hb1⟩
      | cons o2 os2 => exact hbucket2 (by simp [hos])

end ManySubscribe

section NoopLemmas

theorem mapSet_self {m : List (Nat × Bucket)} {k : Nat} {b : Bucket}
    (h : mapGet m k = some b) : mapSet m k b = m := by
  induction m with
  | nil => cases h
  | cons p t ih =>
    obtain ⟨p1, p2⟩ := p
    by_cases hp : p1 = k
    · rw [mapGet] at h
      simp only [hp, if_pos rfl] at h
      obtain rfl : p2 = b := by cases h; rfl
      rw [mapSet]
      simp [hp]
    · rw [mapGet, if_neg hp] at h
      rw [mapSet, if_neg hp, ih h]

/-- Unsubscribing an id that is not (or no longer) among the bucket's
subscriptions leaves the world unchanged and does not throw. -/
theorem unsubscribe_noop (w : World) (p sid : Nat) (hWF : WF w)
    (hout : ∀ b, mapGet w.buckets p = some b → ∀ s ∈ b.subs, s.id ≠ sid) :
    unsubscribe w p sid = .ok w := by
  cases hb : mapGet w.buckets p with
  | none => simp [unsubscribe, hb]
  | some b =>
    have hself : setDelete b.subs sid = b.subs := setDelete_eq_self (hout b hb)
    have hbne : b.subs ≠ [] := (hWF.bucketOk (p, b) (mapGet_eq_some_mem hb)).2.2.2.1
    have hdisp0 : b.disposed = false := (hWF.bucketOk (p, b) (mapGet_eq_some_mem hb)).2.1
    obtain ⟨bdel, bdisp, bid, bal, bsubs⟩ := b
    have hdisp : bdisp = false := hdisp0
    subst hdisp
    simp [unsubscribe, hb, removeFromBucket, bucketRemove, hself,
      List.length_eq_zero, hbne, mapSet_self hb]

/-- After `clear()` the map is empty, so any leftover capability is a no-op. -/
theorem unsubscribe_after_clear (w : World) (p sid : Nat) :
    unsubscribe (clear w) p sid = .ok (clear w) := by
  simp [unsubscribe, clear, mapGet]

end NoopLemmas

section IterateLemmas

theorem iterTicks_yielded (k : Nat) :
    ∀ s : IterSession, s.pos = GenPos.yielded → s.subscribed = true →
    iterTicks k s = { s with lostTicks := s.lostTicks + k } := by
  induction k with
  | zero => intro s _ _; simp [iterTicks]
  | succ n ih =>
    intro s hpos hsub
    rw [iterTicks]
    have hstep : iterTick s = { s with lostTicks := s.lostTicks + 1 } := by
      simp [iterTick, hsub, hpos]
    rw [hstep, ih _ (by simp [hpos]) (by simp [hsub])]
    simp
    omega

theorem iterPulls_yielded (i : Nat) :
    ∀ (m : Nat) (s : IterSession), i ≤ m → s.pos = GenPos.yielded →
    s.lostTicks = m + 1 →
    iterPulls i s = { s with lostTicks := m + 1 - i } := by
  induction i with
  | zero =>
    intro m s _ _ hlost
    rw [iterPulls]
    rw [← hlost]
    rfl
  | succ n ih =>
    intro m s hle hpos hlost
    have hm : 1 ≤ m := le_trans (Nat.succ_le_succ (Nat.zero_le n)) hle
    have h0m : 0 < m := hm
    have hstep : (iterPull s).1 = { s with lostTicks := m } := by
      simp only [iterPull, hpos]
      rw [hlost]
      simp [Nat.add_sub_cancel, h0m]
    rw [iterPulls, hstep]
    rw [ih (m - 1) _ (by omega) (by show s.pos = GenPos.yielded; exact hpos)
      (by show m = m - 1 + 1; omega)]
    have harith : m - 1 + 1 - n = m + 1 - (n + 1) := by omega
    simp [harith]

end IterateLemmas


section WitnessWorlds

/-- The empty pool. -/
def wEmpty : World := ⟨⟨0, []⟩, [], 0⟩

theorem wEmpty_wf : WF wEmpty := by
  refine ⟨?_, ?_, ?_, ?_, ?_, ?_, ?_⟩ <;> simp [wEmpty]

/-- A bucket at period 5 with three subscriptions: id 0 (`run`), id 1
(`once`), id 2 (`run`), driven by timer handle 0. -/
def bW : Bucket := ⟨5, false, some 0, true, [⟨0, false⟩, ⟨1, true⟩, ⟨2, false⟩]⟩

/-- A pool holding exactly `bW`. -/
def wW : World := ⟨⟨1, [(0, 5)]⟩, [(5, bW)], 3⟩

theorem wW_wf : WF wW := by
  refine ⟨?_, ?_, ?_, ?_, ?_, ?_, ?_⟩
  · simp [wW]
  · simp [wW]
  · intro pb hpb
    simp only [wW, List.mem_singleton] at hpb
    subst hpb
    exact ⟨rfl, rfl, rfl, by simp [bW], by decide⟩
  · intro pb hpb
    simp only [wW, List.mem_singleton] at hpb
    subst hpb
    exact ⟨0, rfl, by simp [wW]⟩
  · intro q hq
    simp only [wW, List.mem_singleton] at hq
    subst hq
    exact ⟨bW, rfl, rfl⟩
  · intro q hq
    simp only [wW, List.mem_singleton] at hq
    subst hq
    simp [wW]
  · intro pb hpb s hs
    simp only [wW, List.mem_singleton] at hpb
    subst hpb
    have hs2 : s ∈ bW.subs := hs
    simp only [bW, List.mem_cons, List.mem_singleton] at hs2
    rcases hs2 with rfl | rfl | h2
    · decide
    · decide
    · simp at h2
      subst h2
      decide

/-- A bucket at period 7 with a single `run` subscription (id 0). -/
def bOne : Bucket := ⟨7, false, some 0, true, [⟨0, false⟩]⟩

/-- A pool holding exactly `bOne`. -/
def wOne : World := ⟨⟨1, [(0, 7)]⟩, [(7, bOne)], 1⟩

theorem wOne_wf : WF wOne := by
  refine ⟨?_, ?_, ?_, ?_, ?_, ?_, ?_⟩
  · simp [wOne]
  · simp [wOne]
  · intro pb hpb
    simp only [wOne, List.mem_singleton] at hpb
    subst hpb
    exact ⟨rfl, rfl, rfl, by simp [bOne], by decide⟩
  · intro pb hpb
    simp only [wOne, List.mem_singleton] at hpb
    subst hpb
    exact ⟨0, rfl, by simp [wOne]⟩
  · intro q hq
    simp only [wOne, List.mem_singleton] at hq
    subst hq
    exact ⟨bOne, rfl, rfl⟩
  · intro q hq
    simp only [wOne, List.mem_singleton] at hq
    subst hq
    simp [wOne]
  · intro pb hpb s hs
    simp only [wOne, List.mem_singleton] at hpb
    subst hpb
    have hs2 : s ∈ bOne.subs := hs
    simp only [bOne, List.mem_singleton] at hs2
    subst hs2
    decide

end WitnessWorlds

section Claims

/-- C1: for every pool and period `p`, any sequence of `n ≥ 1` `run`/`once`
calls at `p` leaves exactly one live underlying timer handle for `p` — a
repeated add to a bucket that already holds a handle never schedules a second
timer — while `getSubscriptionCount p` grows by `n` and
`getActiveIntervalCount` equals the number of distinct periods with a live
bucket, not the number of subscriptions. -/
theorem claim1_coalescing_single_timer (w : World) (p : Nat) (os : List Bool)
    (hWF : WF w) (hos : os ≠ []) :
    ∃ w2, subscribeMany p w os = .ok w2 ∧ WF w2 ∧
      countTimersAt w2 p = 1 ∧
      getSubscriptionCount w2 p = getSubscriptionCount w p + os.length ∧
      activeIntervalCount w2 = ((w2.buckets.map Prod.fst).dedup).length := by
  obtain ⟨w2, heq, hWF2, hcount, hbucket⟩ := subscribeMany_spec p os w hWF
  obtain ⟨b2, hb2⟩ := hbucket hos
  refine ⟨w2, heq, hWF2, countTimersAt_of_bucket hWF2 hb2, hcount, ?_⟩
  rw [List.Nodup.dedup hWF2.keysNodup]
  simp [activeIntervalCount]

/-- Witness for C1 at the empty pool with one `run(5, cb)` call. -/
theorem claim1_witness :
    WF wEmpty ∧ ([false] : List Bool) ≠ [] ∧
    (∃ w2, subscribeMany 5 wEmpty [false] = .ok w2 ∧ WF w2 ∧
      countTimersAt w2 5 = 1 ∧
      getSubscriptionCount w2 5 = getSubscriptionCount wEmpty 5 + [false].length ∧
      activeIntervalCount w2 = ((w2.buckets.map Prod.fst).dedup).length) :=
  ⟨wEmpty_wf, by simp,
    claim1_coalescing_single_timer wEmpty 5 [false] wEmpty_wf (by simp)⟩

/-- C2: removing the last subscription of a period — through the unsubscribe
capability, which is exactly the bucket's `remove` — cancels that period's
timer and synchronously drops the period key, so it is immediately absent from
`getStats`, from `getActiveIntervalCount` and from `getSubscriptionCount`;
moreover in any well-formed pool a period key exists only while its bucket's
subscription set is non-empty. -/
theorem claim2_release_on_empty (w : World) (p : Nat) (b : Bucket) (s : Subscription)
    (hWF : WF w) (hb : mapGet w.buckets p = some b) (hone : b.subs = [s]) :
    (∃ w2, unsubscribe w p s.id = .ok w2 ∧
      removeFromBucket w p b s.id = .ok w2 ∧ WF w2 ∧
      mapGet w2.buckets p = none ∧
      countTimersAt w2 p = 0 ∧
      activeIntervalCount w2 + 1 = activeIntervalCount w ∧
      (∀ e ∈ getStats w2, e.1 ≠ p) ∧
      getSubscriptionCount w2 p = 0) ∧
    (∀ u : World, WF u → ∀ q bq, mapGet u.buckets q = some bq → bq.subs ≠ []) := by
  have hdel : setDelete b.subs s.id = [] := by
    rw [hone]
    simp [setDelete]
  obtain ⟨w2, heq, hWF2, _, _, hfin⟩ := removeFromBucket_spec s.id hWF hb
  rw [if_pos hdel] at hfin
  obtain ⟨hnone, h0, hactive⟩ := hfin
  refine ⟨⟨w2, by simp [unsubscribe, hb, heq], heq, hWF2, hnone, h0, hactive, ?_, ?_⟩, ?_⟩
  · intro e he
    obtain ⟨pb, hpb, rfl⟩ := List.mem_map.mp he
    exact mapGet_eq_none_iff.mp hnone pb hpb
  · simp [getSubscriptionCount, hnone]
  · intro u hu q bq hq
    exact (hu.bucketOk (q, bq) (mapGet_eq_some_mem hq)).2.2.2.1

/-- Witness for C2 on a pool with a single subscription at period 7. -/
theorem claim2_witness :
    WF wOne ∧ mapGet wOne.buckets 7 = some bOne ∧
    (∃ w2, unsubscribe wOne 7 (Subscription.id ⟨0, false⟩) = .ok w2 ∧
      mapGet w2.buckets 7 = none ∧ countTimersAt w2 7 = 0 ∧
      activeIntervalCount w2 + 1 = activeIntervalCount wOne) := by
  have h := claim2_release_on_empty wOne 7 bOne ⟨0, false⟩ wOne_wf rfl rfl
  obtain ⟨⟨w2, h1, _, _, h4, h5, h6, _, _⟩, _⟩ := h
  exact ⟨wOne_wf, rfl, w2, h1, h4, h5, h6⟩

/-- C3: on a tick of a bucket's timer the subscriptions fire in registration
(insertion) order: the invocation events of the tick trace are exactly the
bucket's subscription list, in order — so a subscription registered earlier
always runs before a later one within the tick. -/
theorem claim3_fanout_insertion_order (beh : Nat → Bool) (w : World) (p : Nat)
    (b : Bucket) (hWF : WF w) (hb : mapGet w.buckets p = some b) :
    ∃ w2 evs, handleTick beh w p = .ok (w2, evs) ∧ WF w2 ∧
      evs.filter TickEvent.isInvoked =
        b.subs.map (fun s => TickEvent.invoked s.id) := by
  obtain ⟨w2, heq, hWF2, _⟩ := handleTick_spec beh hWF hb
  exact ⟨w2, tickTrace beh b.subs, heq, hWF2, tickTrace_filter_invoked beh b.subs⟩

/-- Witness for C3: three subscriptions at period 5 fire as 0, 1, 2. -/
theorem claim3_witness :
    WF wW ∧ mapGet wW.buckets 5 = some bW ∧
    (∃ w2 evs, handleTick (fun _ => false) wW 5 = .ok (w2, evs) ∧
      evs.filter TickEvent.isInvoked =
        bW.subs.map (fun s => TickEvent.invoked s.id)) := by
  have h := claim3_fanout_insertion_order (fun _ => false) wW 5 bW wW_wf rfl
  obtain ⟨w2, evs, h1, _, h3⟩ := h
  exact ⟨wW_wf, rfl, w2, evs, h1, h3⟩

/-- C4: a callback that throws during a tick is caught — the tick handler
still returns normally (never re-throws to the timer facility), the error is
reported at the point of invocation, and every other subscription of the same
tick, registered before or after the throwing one, is still invoked. -/
theorem claim4_callback_isolation (beh : Nat → Bool) (w : World) (p : Nat)
    (b : Bucket) (sErr : Subscription) (hWF : WF w)
    (hb : mapGet w.buckets p = some b) (hmem : sErr ∈ b.subs)
    (hthrows : beh sErr.id = true) :
    ∃ w2 evs, handleTick beh w p = .ok (w2, evs) ∧ WF w2 ∧
      TickEvent.errorLogged sErr.id ∈ evs ∧
      (∀ s ∈ b.subs, TickEvent.invoked s.id ∈ evs) := by
  obtain ⟨w2, heq, hWF2, _⟩ := handleTick_spec beh hWF hb
  exact ⟨w2, tickTrace beh b.subs, heq, hWF2,
    errorLogged_mem_tickTrace beh hmem hthrows,
    fun s hs => invoked_mem_tickTrace beh hs⟩

/-- Witness for C4: the middle subscription (id 1) throws; all three still
fire and the error is logged. -/
theorem claim4_witness :
    WF wW ∧ mapGet wW.buckets 5 = some bW ∧ (⟨1, true⟩ : Subscription) ∈ bW.subs ∧
    (fun i => i == 1) (Subscription.id ⟨1, true⟩) = true ∧
    (∃ w2 evs, handleTick (fun i => i == 1) wW 5 = .ok (w2, evs) ∧
      TickEvent.errorLogged 1 ∈ evs ∧
      (∀ s ∈ bW.subs, TickEvent.invoked s.id ∈ evs)) := by
  have h := claim4_callback_isolation (fun i => i == 1) wW 5 bW ⟨1, true⟩ wW_wf rfl
    (by simp [bW]) rfl
  obtain ⟨w2, evs, h1, _, h3, h4⟩ := h
  exact ⟨wW_wf, rfl, by simp [bW], rfl, w2, evs, h1, h3, h4⟩

/-- C5: a `once` subscription is invoked exactly once on the tick (whether or
not its callback throws — `beh` is arbitrary), is removed from its bucket
immediately (it is gone from `getSubscriptionCount` right after the tick,
which then counts exactly the non-`once` survivors), and no sequence of
further ticks ever invokes it again. -/
theorem claim5_once_semantics (beh : Nat → Bool) (w : World) (p : Nat)
    (b : Bucket) (s : Subscription) (hWF : WF w)
    (hb : mapGet w.buckets p = some b) (hmem : s ∈ b.subs)
    (honce : s.once = true) :
    ∃ w2 evs, handleTick beh w p = .ok (w2, evs) ∧ WF w2 ∧
      evs.count (TickEvent.invoked s.id) = 1 ∧
      (∀ b2, mapGet w2.buckets p = some b2 → s.id ∉ b2.subs.map Subscription.id) ∧
      getSubscriptionCount w2 p = (b.subs.filter (fun x => !x.once)).length ∧
      (∀ m, ∃ w3 evs3, runTicks beh p m w2 = .ok (w3, evs3) ∧
        TickEvent.invoked s.id ∉ evs3) := by
  have hnd : (b.subs.map Subscription.id).Nodup :=
    (hWF.bucketOk (p, b) (mapGet_eq_some_mem hb)).2.2.2.2
  obtain ⟨w2, heq, hWF2, _, _, hfin⟩ := handleTick_spec beh hWF hb
  have hcount : (tickTrace beh b.subs).count (TickEvent.invoked s.id) = 1 := by
    rw [count_invoked_tickTrace]
    exact List.count_eq_one_of_mem hnd (List.mem_map.mpr ⟨s, hmem, rfl⟩)
  have hnotin : ∀ b2, mapGet w2.buckets p = some b2 →
      s.id ∉ b2.subs.map Subscription.id := by
    intro b2 hb2 hin
    by_cases hcond : b.subs.filter (fun x => !x.once) = []
    · rw [if_pos hcond] at hfin
      rw [hfin] at hb2
      cases hb2
    · rw [if_neg hcond] at hfin
      rw [hfin] at hb2
      obtain rfl : b2 = { b with subs := b.subs.filter (fun x => !x.once) } := by
        cases hb2
        rfl
      obtain ⟨x, hx, hxid⟩ := List.mem_map.mp hin
      have hxsubs := List.mem_of_mem_filter hx
      obtain rfl : x = s := eq_of_id_of_nodup hnd hxsubs hmem hxid
      have hxp := List.of_mem_filter hx
      rw [honce] at hxp
      simp at hxp
  have hsubcount : getSubscriptionCount w2 p =
      (b.subs.filter (fun x => !x.once)).length := by
    by_cases hcond : b.subs.filter (fun x => !x.once) = []
    · rw [if_pos hcond] at hfin
      simp [getSubscriptionCount, hfin, hcond]
    · rw [if_neg hcond] at hfin
      simp [getSubscriptionCount, hfin]
  refine ⟨w2, tickTrace beh b.subs, heq, hWF2, hcount, hnotin, hsubcount, ?_⟩
  intro m
  obtain ⟨w3, evs3, heq3, _, hni, _⟩ :=
    runTicks_no_invoke beh p s.id m w2 hWF2 hnotin
  exact ⟨w3, evs3, heq3, hni⟩

/-- Witness for C5: the `once` subscription (id 1, throwing callback) fires
exactly once and is gone afterwards, in particular after 4 further ticks. -/
theorem claim5_witness :
    WF wW ∧ mapGet wW.buckets 5 = some bW ∧ (⟨1, true⟩ : Subscription) ∈ bW.subs ∧
    (∃ w2 evs, handleTick (fun _ => true) wW 5 = .ok (w2, evs) ∧
      evs.count (TickEvent.invoked 1) = 1 ∧
      getSubscriptionCount w2 5 = (bW.subs.filter (fun x => !x.once)).length ∧
      (∃ w3 evs3, runTicks (fun _ => true) 5 4 w2 = .ok (w3, evs3) ∧
        TickEvent.invoked 1 ∉ evs3)) := by
  have h := claim5_once_semantics (fun _ => true) wW 5 bW ⟨1, true⟩ wW_wf rfl
    (by simp [bW]) rfl
  obtain ⟨w2, evs, h1, _, h3, _, h5, h6⟩ := h
  exact ⟨wW_wf, rfl, by simp [bW], w2, evs, h1, h3, h5, h6 4⟩

/-- C6: the unsubscribe capability never throws; its first invocation removes
exactly the one subscription from exactly its bucket (all other periods are
untouched), a second invocation is a no-op returning the unchanged world, and
invoking it after `clear()` is likewise a safe no-op. -/
theorem claim6_idempotent_unsubscribe (w : World) (p sid : Nat) (hWF : WF w) :
    ∃ w1, unsubscribe w p sid = .ok w1 ∧ WF w1 ∧
      unsubscribe w1 p sid = .ok w1 ∧
      unsubscribe (clear w) p sid = .ok (clear w) ∧
      (∀ q, q ≠ p → mapGet w1.buckets q = mapGet w.buckets q) ∧
      (∀ b, mapGet w.buckets p = some b →
        (if setDelete b.subs sid = [] then mapGet w1.buckets p = none
         else mapGet w1.buckets p = some { b with subs := setDelete b.subs sid })) := by
  cases hb : mapGet w.buckets p with
  | none =>
    refine ⟨w, by simp [unsubscribe, hb], hWF, by simp [unsubscribe, hb],
      unsubscribe_after_clear w p sid, fun q _ => rfl, ?_⟩
    intro b0 hb0
    simp [hb] at hb0
  | some b =>
    obtain ⟨w1, heq, hWF1, _, hother, hfin⟩ := removeFromBucket_spec sid hWF hb
    have hsecond : unsubscribe w1 p sid = .ok w1 := by
      apply unsubscribe_noop w1 p sid hWF1
      intro b1 hb1 s hs
      by_cases hcond : setDelete b.subs sid = []
      · rw [if_pos hcond] at hfin
        rw [hfin.1] at hb1
        cases hb1
      · rw [if_neg hcond] at hfin
        rw [hfin.1] at hb1
        obtain rfl : b1 = { b with subs := setDelete b.subs sid } := by
          cases hb1
          rfl
        exact (mem_of_mem_setDelete hs).2
    refine ⟨w1, by simp [unsubscribe, hb, heq], hWF1, hsecond,
      unsubscribe_after_clear w p sid, hother, ?_⟩
    intro b0 hb0
    obtain rfl : b = b0 := by injection hb0
    by_cases hcond : setDelete b.subs sid = []
    · rw [if_pos hcond] at hfin ⊢
      exact hfin.1
    · rw [if_neg hcond] at hfin ⊢
      exact hfin.1

/-- Witness for C6: unsubscribing id 0 at period 5 twice, and after clear. -/
theorem claim6_witness :
    WF wW ∧
    (∃ w1, unsubscribe wW 5 0 = .ok w1 ∧
      unsubscribe w1 5 0 = .ok w1 ∧
      unsubscribe (clear wW) 5 0 = .ok (clear wW)) := by
  have h := claim6_idempotent_unsubscribe wW 5 0 wW_wf
  obtain ⟨w1, h1, _, h3, h4, _⟩ := h
  exact ⟨wW_wf, w1, h1, h3, h4⟩

/-- C7: pull coalescing of an `iterate` session.  From a quiescent session
(suspended at `yield`, every earlier tick consumed, so `lostTicks = 1`), if
the timer fires `k ≥ 1` times before the consumer pulls again, then the next
`k` pulls each resolve immediately, each consuming exactly one pending tick
(`lostTicks` falls one-for-one: no tick is lost), and the `(k+1)`-th pull
suspends on the tick promise until a new tick occurs. -/
theorem claim7_pull_coalescing (s : IterSession) (k : Nat) (hk : 1 ≤ k)
    (hpos : s.pos = GenPos.yielded) (hsub : s.subscribed = true)
    (hlost : s.lostTicks = 1) :
    (iterTicks k s).lostTicks = s.lostTicks + k ∧
    (∀ i, i < k → (iterPull (iterPulls i (iterTicks k s))).2 = PullResult.immediate) ∧
    (∀ i, i ≤ k → (iterPulls i (iterTicks k s)).lostTicks = k + 1 - i) ∧
    (iterPull (iterPulls k (iterTicks k s))).2 = PullResult.suspended := by
  have hticks : iterTicks k s = { s with lostTicks := s.lostTicks + k } :=
    iterTicks_yielded k s hpos hsub
  have hs1pos : (iterTicks k s).pos = GenPos.yielded := by
    rw [hticks]
    exact hpos
  have hs1lost : (iterTicks k s).lostTicks = k + 1 := by
    rw [hticks]
    show s.lostTicks + k = k + 1
    omega
  have hpull : ∀ u : IterSession, u.pos = GenPos.yielded →
      (iterPull u).2 =
        if 0 < u.lostTicks - 1 then PullResult.immediate else PullResult.suspended := by
    intro u hu
    simp only [iterPull, hu]
    by_cases hgt : 0 < u.lostTicks - 1 <;> simp [hgt]
  refine ⟨by rw [hticks], ?_, ?_, ?_⟩
  · intro i hi
    rw [iterPulls_yielded i k _ (le_of_lt hi) hs1pos hs1lost,
      hpull _ (by show (iterTicks k s).pos = GenPos.yielded; exact hs1pos)]
    show (if 0 < k + 1 - i - 1 then PullResult.immediate else PullResult.suspended) = _
    rw [if_pos (by omega)]
  · intro i hi
    rw [iterPulls_yielded i k _ hi hs1pos hs1lost]
  · rw [iterPulls_yielded k k _ (le_refl k) hs1pos hs1lost,
      hpull _ (by show (iterTicks k s).pos = GenPos.yielded; exact hs1pos)]
    show (if 0 < k + 1 - k - 1 then PullResult.immediate else PullResult.suspended) = _
    rw [if_neg (by omega)]

/-- Witness for C7: three ticks against a quiescent session, then three
immediate pulls and a suspending fourth. -/
theorem claim7_witness :
    (⟨GenPos.yielded, 1, false, true⟩ : IterSession).lostTicks = 1 ∧
    (iterTicks 3 ⟨GenPos.yielded, 1, false, true⟩).lostTicks = 1 + 3 ∧
    (∀ i, i < 3 →
      (iterPull (iterPulls i (iterTicks 3 ⟨GenPos.yielded, 1, false, true⟩))).2 =
        PullResult.immediate) ∧
    (iterPull (iterPulls 3 (iterTicks 3 ⟨GenPos.yielded, 1, false, true⟩))).2 =
      PullResult.suspended := by
  have h := claim7_pull_coalescing ⟨GenPos.yielded, 1, false, true⟩ 3 (by omega) rfl rfl rfl
  exact ⟨rfl, h.1, h.2.1, h.2.2.2⟩

/-- C8: `dispose()` on a live bucket clears all subscriptions, cancels the
held timer handle, never emits the `#onEmpty` notification event, and a second
`dispose()` call is a no-op (same state, still no event). -/
theorem claim8_dispose (t : TimerWorld) (b : Bucket) (hdisp : b.disposed = false) :
    (bucketDispose t b).2.2 = [] ∧
    (bucketDispose t b).2.1.subs = [] ∧
    (bucketDispose t b).2.1.intervalId = none ∧
    (bucketDispose t b).2.1.disposed = true ∧
    ((bucketDispose t b).1.live =
      match b.intervalId with
      | some h => t.live.filter (fun q => q.1 ≠ h)
      | none => t.live) ∧
    bucketDispose (bucketDispose t b).1 (bucketDispose t b).2.1 =
      ((bucketDispose t b).1, (bucketDispose t b).2.1, []) := by
  cases hid : b.intervalId with
  | none => simp [bucketDispose, hdisp, hid]
  | some h => simp [bucketDispose, hdisp, hid]

/-- Witness for C8: disposing a live one-subscription bucket with handle 0. -/
theorem claim8_witness :
    (⟨5, false, some 0, true, [⟨0, false⟩]⟩ : Bucket).disposed = false ∧
    (bucketDispose ⟨1, [(0, 5)]⟩ ⟨5, false, some 0, true, [⟨0, false⟩]⟩).2.2 = [] ∧
    (bucketDispose ⟨1, [(0, 5)]⟩ ⟨5, false, some 0, true, [⟨0, false⟩]⟩).2.1.subs = [] ∧
    (bucketDispose ⟨1, [(0, 5)]⟩ ⟨5, false, some 0, true, [⟨0, false⟩]⟩).2.1.intervalId
      = none := by
  have h := claim8_dispose ⟨1, [(0, 5)]⟩ ⟨5, false, some 0, true, [⟨0, false⟩]⟩ rfl
  exact ⟨rfl, h.1, h.2.1, h.2.2.1⟩

/-- C9: `add` and `remove` on a disposed bucket fail loudly with an explicit
error — in particular a disposed bucket can never acquire a new timer, since
`add` never returns successfully. -/
theorem claim9_disposed_use_throws (t : TimerWorld) (b : Bucket)
    (s : Subscription) (sid : Nat) (hdisp : b.disposed = true) :
    bucketAdd t b s = .error "Cannot add subscription to a disposed bucket" ∧
    bucketRemove t b sid = .error "Cannot remove subscription from a disposed bucket" ∧
    (∀ t2 b2, bucketAdd t b s ≠ .ok (t2, b2)) := by
  have h1 : bucketAdd t b s = .error "Cannot add subscription to a disposed bucket" := by
    simp [bucketAdd, hdisp]
  refine ⟨h1, by simp [bucketRemove, hdisp], ?_⟩
  intro t2 b2 h
  rw [h1] at h
  cases h

/-- Witness for C9: a disposed bucket rejects `add` and `remove`. -/
theorem claim9_witness :
    (⟨5, true, none, false, []⟩ : Bucket).disposed = true ∧
    bucketAdd ⟨1, []⟩ ⟨5, true, none, false, []⟩ ⟨3, false⟩ =
      .error "Cannot add subscription to a disposed bucket" ∧
    bucketRemove ⟨1, []⟩ ⟨5, true, none, false, []⟩ 3 =
      .error "Cannot remove subscription from a disposed bucket" := by
  have h := claim9_disposed_use_throws ⟨1, []⟩ ⟨5, true, none, false, []⟩ ⟨3, false⟩ 3 rfl
  exact ⟨rfl, h.1, h.2.1⟩

end Claims

end IntervalPoolModel
